import Mathlib

/-
Verification of the plexus half-edge mesh core.

The development shallowly embeds `src/graph/mesh.rs` (records, the guarded
mutation API) and `src/graph/container.rs` (the `Core` type-state aggregate).
The keyed storage (`src/graph/storage.rs`), the face view boundary iterator
(`src/graph/topology.rs`) and the deduplicating indexer (`src/generate`) are
not part of the provided sources; those pieces are modelled from the
specification and marked as such in their doc comments.
-/

namespace Plexus

/-- Vertex keys are small opaque identifiers generated by storage. -/
abbrev VertexKey := Nat

/-- Face keys are small opaque identifiers generated by storage. -/
abbrev FaceKey := Nat

/-- An `EdgeKey` is exactly the ordered pair (source, destination) of vertex
keys (`storage.rs`: derived `From<(VertexKey, VertexKey)>`). -/
abbrev EdgeKey := VertexKey × VertexKey

/-- Modelled from the spec: lookup in the association list backing a keyed
storage (`Storage::get`, §4.1: associative container with O(1) lookup; we use
a list, which is observationally the same map). First matching key wins. -/
def lookupEntries {K V : Type} [DecidableEq K] : List (K × V) → K → Option V
  | [], _ => none
  | (k', v) :: rest, k => if k' = k then some v else lookupEntries rest k

/-- Modelled from the spec: replace-or-append insertion with a caller-supplied
key (`Storage::insert_with_key`, §4.1), with map semantics: an existing
binding for the key is overwritten, otherwise a new binding is added. -/
def insertEntries {K V : Type} [DecidableEq K] : List (K × V) → K → V → List (K × V)
  | [], k, v => [(k, v)]
  | (k', v') :: rest, k, v =>
    if k' = k then (k, v) :: rest else (k', v') :: insertEntries rest k v

/-- Modelled from the spec: in-place update of the value bound to a key
(`Storage::get_mut` followed by a field assignment, §4.1). Keys without a
binding are left untouched. -/
def modifyEntries {K V : Type} [DecidableEq K] : List (K × V) → K → (V → V) → List (K × V)
  | [], _, _ => []
  | (k', v') :: rest, k, f =>
    if k' = k then (k', f v') :: rest else (k', v') :: modifyEntries rest k f

/-- Modelled from the spec: removal of a key's binding (`Storage::remove`,
§4.1). -/
def removeEntries {K V : Type} [DecidableEq K] : List (K × V) → K → List (K × V)
  | [], _ => []
  | (k', v') :: rest, k => if k' = k then rest else (k', v') :: removeEntries rest k

/-- Modelled from the spec: keyed storage (§4.1) — an associative container
mapping generated keys to topological elements, with a fresh-key counter used
by `insert_with_generator`. -/
structure Storage (K : Type) (V : Type) where
  nextKey : Nat
  entries : List (K × V)
deriving DecidableEq

namespace Storage

variable {K V W : Type} [DecidableEq K]

/-- Modelled from the spec: `Storage::new`, the empty storage. -/
def new : Storage K V := ⟨0, []⟩

/-- Modelled from the spec: `Storage::get` (§4.1). -/
def get (s : Storage K V) (k : K) : Option V := lookupEntries s.entries k

/-- Modelled from the spec: `Storage::contains_key` (§4.1). -/
def contains_key (s : Storage K V) (k : K) : Bool := (s.get k).isSome

/-- Modelled from the spec: `Storage::len` (§4.1). -/
def len (s : Storage K V) : Nat := s.entries.length

/-- Modelled from the spec: `Storage::insert_with_key` (§4.1), caller-supplied
key, map insertion semantics (overwrite on collision). -/
def insert_with_key (s : Storage K V) (k : K) (v : V) : Storage K V :=
  ⟨s.nextKey, insertEntries s.entries k v⟩

/-- Modelled from the spec: `Storage::get_mut` followed by a mutation of the
record in place (§4.1). -/
def modify (s : Storage K V) (k : K) (f : V → V) : Storage K V :=
  ⟨s.nextKey, modifyEntries s.entries k f⟩

/-- Modelled from the spec: `Storage::remove` (§4.1). -/
def remove (s : Storage K V) (k : K) : Storage K V :=
  ⟨s.nextKey, removeEntries s.entries k⟩

/-- Modelled from the spec: `Storage::insert_with_generator` (§4.1) —
auto-assigns a fresh key from the generator counter. Only generator-keyed
storages (vertices, faces) use it, so it is defined for `Nat` keys. -/
def insert_with_generator (s : Storage Nat V) (v : V) : Nat × Storage Nat V :=
  (s.nextKey, ⟨s.nextKey + 1, s.entries ++ [(s.nextKey, v)]⟩)

/-- Modelled from the spec: `Storage::map_values` (§4.1), the
structure-preserving value-map transform used for geometry conversion. -/
def map_values (s : Storage K V) (f : V → W) : Storage K W :=
  ⟨s.nextKey, s.entries.map (fun p => (p.1, f p.2))⟩

end Storage

/-- `Vertex<T>` from `mesh.rs`: geometry payload plus an optional cached
outgoing half-edge. -/
structure Vertex (T : Type) where
  geometry : T
  edge : Option EdgeKey
deriving DecidableEq

/-- `Vertex::new` from `mesh.rs`. -/
def Vertex.new {T : Type} (geometry : T) : Vertex T := ⟨geometry, none⟩

/-- `Edge<T>` from `mesh.rs`: a half-edge record. `vertex` is the destination
endpoint; `opposite`, `next` and `face` are the connectivity links. -/
structure Edge (T : Type) where
  geometry : T
  vertex : VertexKey
  opposite : Option EdgeKey
  next : Option EdgeKey
  face : Option FaceKey
deriving DecidableEq

/-- `Edge::new` from `mesh.rs`. -/
def Edge.new {T : Type} (vertex : VertexKey) (geometry : T) : Edge T :=
  ⟨geometry, vertex, none, none, none⟩

/-- `Face<T>` from `mesh.rs`: geometry payload plus a reference to one
boundary half-edge. -/
structure Face (T : Type) where
  geometry : T
  edge : EdgeKey
deriving DecidableEq

/-- `Face::new` from `mesh.rs`. -/
def Face.new {T : Type} (edge : EdgeKey) (geometry : T) : Face T := ⟨geometry, edge⟩

/-- `Mesh<G>` from `mesh.rs`: the three owned storages. The geometry
capability `G` is represented by its three associated attribute types. -/
structure Mesh (GV GE GF : Type) where
  vertices : Storage VertexKey (Vertex GV)
  edges : Storage EdgeKey (Edge GE)
  faces : Storage FaceKey (Face GF)
deriving DecidableEq

/-- Result of a mutation, carrying the storage state. `ok` models `Ok`,
`recoverableErr` models `Err(())`, and `panicked` models a Rust panic from an
`unwrap` of a missing value (with the state at the moment of the panic). -/
inductive MRes (σ : Type) (α : Type) where
  | ok : α → σ → MRes σ α
  | recoverableErr : σ → MRes σ α
  | panicked : σ → MRes σ α
deriving DecidableEq

/-- True exactly when the result is `ok`. -/
def MRes.isOk {σ α : Type} : MRes σ α → Bool
  | .ok _ _ => true
  | _ => false

/-- True exactly when the result is a recoverable `Err`. -/
def MRes.isErr {σ α : Type} : MRes σ α → Bool
  | .recoverableErr _ => true
  | _ => false

/-- True exactly when the operation panicked. -/
def MRes.isPanicked {σ α : Type} : MRes σ α → Bool
  | .panicked _ => true
  | _ => false

/-- The storage state carried by the result. -/
def MRes.state {σ α : Type} : MRes σ α → σ
  | .ok _ m => m
  | .recoverableErr m => m
  | .panicked m => m

namespace Mesh

variable {GV GE GF : Type}

/-- `Mesh::new` from `mesh.rs`. -/
def new : Mesh GV GE GF := ⟨Storage.new, Storage.new, Storage.new⟩

/-- `Mesh::vertex_count` from `mesh.rs`. -/
def vertex_count (m : Mesh GV GE GF) : Nat := m.vertices.len

/-- `Mesh::edge_count` from `mesh.rs`. -/
def edge_count (m : Mesh GV GE GF) : Nat := m.edges.len

/-- `Mesh::face_count` from `mesh.rs`. -/
def face_count (m : Mesh GV GE GF) : Nat := m.faces.len

/-- `Mesh::insert_vertex` from `mesh.rs`: always succeeds, fresh key, no
connectivity. -/
def insert_vertex (m : Mesh GV GE GF) (geometry : GV) : VertexKey × Mesh GV GE GF :=
  let p := m.vertices.insert_with_generator (Vertex.new geometry)
  (p.1, { m with vertices := p.2 })

/-- `Mesh::insert_edge` from `mesh.rs`, line for line: build the record with
destination `b`; if the antiparallel edge `(b,a)` is present, link both
`opposite` fields; insert under key `(a,b)` (map semantics); finally
`vertices.get_mut(&a).unwrap()` — a panic when vertex `a` is absent, *after*
the edge storage has already been mutated. Note that no check of `a = b`, of
a pre-existing `(a,b)` edge, or of vertex `b` is performed. -/
def insert_edge (m : Mesh GV GE GF) (vertices : VertexKey × VertexKey)
    (geometry : GE) : MRes (Mesh GV GE GF) EdgeKey :=
  let a := vertices.1
  let b := vertices.2
  let ab : EdgeKey := (a, b)
  let ba : EdgeKey := (b, a)
  let edge := Edge.new b geometry
  let step :=
    match m.edges.get ba with
    | some _ =>
      ({ edge with opposite := some ba },
        m.edges.modify ba (fun o => { o with opposite := some ab }))
    | none => (edge, m.edges)
  let edges1 := step.2.insert_with_key ab step.1
  match m.vertices.get a with
  | none => .panicked { m with edges := edges1 }
  | some _ =>
    .ok ab { m with
              edges := edges1,
              vertices := m.vertices.modify a (fun v => { v with edge := some ab }) }

/-- `Mesh::connect_edges_in_face` from `mesh.rs`:
`edges.get_mut(&e1).unwrap()` (panic when the edge is absent), then set
`next = e2` and `face = face`. -/
def connect_edges_in_face (m : Mesh GV GE GF) (face : FaceKey)
    (e1 e2 : EdgeKey) : MRes (Mesh GV GE GF) Unit :=
  match m.edges.get e1 with
  | none => .panicked m
  | some _ =>
    .ok () { m with
              edges := m.edges.modify e1
                (fun e => { e with next := some e2, face := some face }) }

/-- The circularly-linked pairs `(edges[i], edges[(i+1) % n])` traversed by
the `for` loop in `Mesh::insert_face`. -/
def cyclePairs (es : List EdgeKey) : List (EdgeKey × EdgeKey) :=
  (List.range es.length).map
    (fun i => (es.getD i (0, 0), es.getD ((i + 1) % es.length) (0, 0)))

/-- The loop body of `Mesh::insert_face`: connect every circular pair,
propagating a panic from `connect_edges_in_face`. -/
def connectAll (face : FaceKey) :
    Mesh GV GE GF → List (EdgeKey × EdgeKey) → MRes (Mesh GV GE GF) Unit
  | m, [] => .ok () m
  | m, p :: rest =>
    match connect_edges_in_face m face p.1 p.2 with
    | .ok _ m' => connectAll face m' rest
    | .recoverableErr m' => .recoverableErr m'
    | .panicked m' => .panicked m'

/-- `Mesh::insert_face` from `mesh.rs`: fail with `Err(())` when fewer than 3
edges are given (before any mutation); otherwise allocate a face referencing
`edges[0]` and walk the slice circularly setting each `next`/`face` pair. No
adjacency (cycle) validation and no occupied-edge check is performed. -/
def insert_face (m : Mesh GV GE GF) (es : List EdgeKey) (geometry : GF) :
    MRes (Mesh GV GE GF) FaceKey :=
  if es.length < 3 then .recoverableErr m
  else
    let p := m.faces.insert_with_generator (Face.new es.headI geometry)
    match connectAll p.1 { m with faces := p.2 } (cyclePairs es) with
    | .ok _ m' => .ok p.1 m'
    | .recoverableErr m' => .recoverableErr m'
    | .panicked m' => .panicked m'

/-- Modelled from the spec: the face view's boundary iterator
(`FaceRef::edges`, §4.3 Views / §3 Face) — repeatedly follow `next` from the
given start edge, collecting keys, until the starting edge recurs; a missing
record or absent `next` link is an internal unwrap (panic), modelled as
`none`. Fuel bounds the walk; a walk that does not close within the number of
stored edges cannot recur and is likewise `none`. -/
def boundaryFrom (m : Mesh GV GE GF) (start : EdgeKey) :
    Nat → EdgeKey → Option (List EdgeKey)
  | 0, _ => none
  | fuel + 1, cur =>
    match m.edges.get cur with
    | none => none
    | some e =>
      match e.next with
      | none => none
      | some nxt =>
        if nxt = start then some [cur]
        else (boundaryFrom m start fuel nxt).map (cur :: ·)

/-- Modelled from the spec: collect the boundary edge keys of a face by
walking `next` from its stored edge (stop on return-to-start). -/
def boundary (m : Mesh GV GE GF) (start : EdgeKey) : Option (List EdgeKey) :=
  boundaryFrom m start (m.edges.len + 1) start

/-- One iteration of the removal loop in `Mesh::remove_face`, line for line:
look up the edge (`unwrap`); read `a = edge.vertex` and
`b = edge.next.map(|k| edges.get(&k).unwrap().vertex)` (the inner `unwrap`
panics when the `next` edge has already been deleted); clear the `opposite`
field of edge `(b,a)` when present; clear vertex `a`'s cached outgoing edge
when it points at this edge; finally delete the edge. -/
def removeStep (m : Mesh GV GE GF) (edge : EdgeKey) : MRes (Mesh GV GE GF) Unit :=
  match m.edges.get edge with
  | none => .panicked m
  | some e =>
    let a := e.vertex
    match e.next with
    | some nk =>
      match m.edges.get nk with
      | none => .panicked m
      | some ne =>
        let b := ne.vertex
        let ba : EdgeKey := (b, a)
        let m1 :=
          match m.edges.get ba with
          | some _ =>
            { m with edges := m.edges.modify ba (fun o => { o with opposite := none }) }
          | none => m
        match m1.vertices.get a with
        | none => .panicked m1
        | some v =>
          let m2 :=
            if v.edge = some edge then
              { m1 with vertices := m1.vertices.modify a (fun vv => { vv with edge := none }) }
            else m1
          .ok () { m2 with edges := m2.edges.remove edge }
    | none =>
      match m.vertices.get a with
      | none => .panicked m
      | some v =>
        let m2 :=
          if v.edge = some edge then
            { m with vertices := m.vertices.modify a (fun vv => { vv with edge := none }) }
          else m
        .ok () { m2 with edges := m2.edges.remove edge }

/-- The edge removal loop of `Mesh::remove_face`. -/
def removeLoop : Mesh GV GE GF → List EdgeKey → MRes (Mesh GV GE GF) Unit
  | m, [] => .ok () m
  | m, e :: rest =>
    match removeStep m e with
    | .ok _ m' => removeLoop m' rest
    | .recoverableErr m' => .recoverableErr m'
    | .panicked m' => .panicked m'

/-- `Mesh::remove_face` from `mesh.rs`: `self.face(face).unwrap()` panics on
an unknown face key (before any mutation); otherwise collect the boundary by
the view iterator, run the removal loop, and finally delete the face
record. -/
def remove_face (m : Mesh GV GE GF) (face : FaceKey) : MRes (Mesh GV GE GF) Unit :=
  match m.faces.get face with
  | none => .panicked m
  | some f =>
    match boundary m f.edge with
    | none => .panicked m
    | some es =>
      match removeLoop m es with
      | .ok _ m' => .ok () { m' with faces := m'.faces.remove face }
      | .recoverableErr m' => .recoverableErr m'
      | .panicked m' => .panicked m'

end Mesh

/-- The `FromGeometry` conversion of a vertex record (`mesh.rs`,
`impl FromGeometry<Vertex<U>> for Vertex<T>`): convert the geometry payload,
copy the `edge` back-reference unchanged. -/
def Vertex.from_geometry {T U : Type} (f : U → T) (v : Vertex U) : Vertex T :=
  ⟨f v.geometry, v.edge⟩

/-- The `FromGeometry` conversion of an edge record (`mesh.rs`,
`impl FromGeometry<Edge<U>> for Edge<T>`): convert the geometry payload, copy
`vertex`, `opposite`, `next` and `face` unchanged. -/
def Edge.from_geometry {T U : Type} (f : U → T) (e : Edge U) : Edge T :=
  ⟨f e.geometry, e.vertex, e.opposite, e.next, e.face⟩

/-- The `FromGeometry` conversion of a face record (`mesh.rs`,
`impl FromGeometry<Face<U>> for Face<T>`): convert the geometry payload, copy
the `edge` reference unchanged. -/
def Face.from_geometry {T U : Type} (f : U → T) (fc : Face U) : Face T :=
  ⟨f fc.geometry, fc.edge⟩

/-- The `FromGeometry` conversion of a whole mesh (`mesh.rs`,
`impl FromGeometry<Mesh<H>> for Mesh<G>`): `map_values` over each of the
three storages with the per-record conversions. -/
def Mesh.from_geometry {GV GE GF HV HE HF : Type}
    (fv : HV → GV) (fe : HE → GE) (ff : HF → GF) (m : Mesh HV HE HF) :
    Mesh GV GE GF :=
  ⟨m.vertices.map_values (Vertex.from_geometry fv),
    m.edges.map_values (Edge.from_geometry fe),
    m.faces.map_values (Face.from_geometry ff)⟩

/-- Modelled from the spec: first index of a geometry value in the
deduplicated vertex list (indexer contract, §6: equal geometries map to the
same index, first-seen order defines the index value). -/
def idxOf {γ : Type} [DecidableEq γ] : List γ → γ → Nat
  | [], _ => 0
  | x :: rest, g => if x = g then 0 else idxOf rest g + 1

/-- Modelled from the spec: the deduplicated vertex list in first-seen order
produced by the indexer (`HashIndexer` / `index_vertices`, §6). -/
def uniques {γ : Type} [DecidableEq γ] (l : List γ) : List γ :=
  l.foldl (fun acc g => if g ∈ acc then acc else acc ++ [g]) []

/-- The flat stream of triangle-vertex geometry references, in polygon
order. -/
def flattenTriangles {γ : Type} (tris : List (γ × γ × γ)) : List γ :=
  tris.flatMap (fun t => [t.1, t.2.1, t.2.2])

/-- The vertex-insertion phase of `FromIterator for Mesh` (`mesh.rs`): insert
every deduplicated vertex geometry, collecting the generated keys in order. -/
def Mesh.insertVertices {GV GE GF : Type} :
    Mesh GV GE GF → List GV → List VertexKey × Mesh GV GE GF
  | m, [] => ([], m)
  | m, g :: rest =>
    let p := m.insert_vertex g
    let q := Mesh.insertVertices p.2 rest
    (p.1 :: q.1, q.2)

/-- The per-triangle body of `FromIterator for Mesh` (`mesh.rs`): insert the
three directed edges `(a,b)`, `(b,c)`, `(c,a)` with default edge geometry and
then the face over the three edge keys in order; every `Result` is
`.unwrap()`-ed, so a recoverable failure from `insert_face` becomes a
panic. -/
def Mesh.triangleStep {GV GE GF : Type} (geDefault : GE) (gfDefault : GF)
    (m : Mesh GV GE GF) (a b c : VertexKey) : MRes (Mesh GV GE GF) Unit :=
  match m.insert_edge (a, b) geDefault with
  | .recoverableErr m1 => .panicked m1
  | .panicked m1 => .panicked m1
  | .ok ab m1 =>
    match m1.insert_edge (b, c) geDefault with
    | .recoverableErr m2 => .panicked m2
    | .panicked m2 => .panicked m2
    | .ok bc m2 =>
      match m2.insert_edge (c, a) geDefault with
      | .recoverableErr m3 => .panicked m3
      | .panicked m3 => .panicked m3
      | .ok ca m3 =>
        match m3.insert_face [ab, bc, ca] gfDefault with
        | .ok _ m4 => .ok () m4
        | .recoverableErr m4 => .panicked m4
        | .panicked m4 => .panicked m4

/-- The triangle loop of `FromIterator for Mesh` (`mesh.rs`): map each
triangle's three geometry values through the indexer to vertex keys
(`vertices[triangle.next().unwrap()]`, an out-of-range index being a panic)
and run the per-triangle insertion. -/
def Mesh.trianglesLoop {γ GV GE GF : Type} [DecidableEq γ]
    (geDefault : GE) (gfDefault : GF) (uniq : List γ) (keys : List VertexKey) :
    Mesh GV GE GF → List (γ × γ × γ) → MRes (Mesh GV GE GF) Unit
  | m, [] => .ok () m
  | m, t :: rest =>
    match keys.get? (idxOf uniq t.1), keys.get? (idxOf uniq t.2.1),
        keys.get? (idxOf uniq t.2.2) with
    | some a, some b, some c =>
      match Mesh.triangleStep geDefault gfDefault m a b c with
      | .ok _ m' => Mesh.trianglesLoop geDefault gfDefault uniq keys m' rest
      | .recoverableErr m' => .recoverableErr m'
      | .panicked m' => .panicked m'
    | _, _, _ => .panicked m

/-- `FromIterator for Mesh` (`mesh.rs`, `from_iter`), for an input that is
already a stream of triangles: deduplicate the vertex geometries with the
indexer (modelled from the spec, §6), insert each unique vertex (converted
into the mesh's vertex geometry by `fv`, the `Into` conversion), then insert
three directed edges and one face per triangle. -/
def Mesh.fromTriangles {γ GV GE GF : Type} [DecidableEq γ]
    (fv : γ → GV) (geDefault : GE) (gfDefault : GF)
    (tris : List (γ × γ × γ)) : MRes (Mesh GV GE GF) Unit :=
  let uniq := uniques (flattenTriangles tris)
  let p := Mesh.insertVertices (Mesh.new) (uniq.map fv)
  Mesh.trianglesLoop geDefault gfDefault uniq p.1 p.2 tris

/-- `Core<V, A, E, F>` from `container.rs`: a raw aggregate of four storage
slots (vertices, arcs, edges, faces); absent slots are the unit type. -/
structure Core (V A E F : Type) where
  vertices : V
  arcs : A
  edges : E
  faces : F
deriving DecidableEq

/-- `Core::empty` from `container.rs`: all four slots absent. -/
def Core.empty : Core Unit Unit Unit Unit := ⟨(), (), (), ()⟩

/-- `Core::into_storage` from `container.rs`: decompose into the tuple
`(vertices, arcs, edges, faces)`. -/
def Core.into_storage {V A E F : Type} (c : Core V A E F) : V × A × E × F :=
  (c.vertices, c.arcs, c.edges, c.faces)

/-- `impl Bind<Vertex<G>, V> for Core<(), A, E, F>` from `container.rs`: fill
the vertex slot, keeping the other three. -/
def Core.bindVertices {A E F V : Type} (c : Core Unit A E F) (vertices : V) :
    Core V A E F :=
  ⟨vertices, c.arcs, c.edges, c.faces⟩

/-- `impl Bind<Arc<G>, A> for Core<V, (), E, F>` from `container.rs`: fill
the arc slot, keeping the other three. -/
def Core.bindArcs {V E F A : Type} (c : Core V Unit E F) (arcs : A) :
    Core V A E F :=
  ⟨c.vertices, arcs, c.edges, c.faces⟩

/-- `impl Bind<Edge<G>, E> for Core<V, A, (), F>` from `container.rs`: fill
the edge slot, keeping the other three. -/
def Core.bindEdges {V A F E : Type} (c : Core V A Unit F) (edges : E) :
    Core V A E F :=
  ⟨c.vertices, c.arcs, edges, c.faces⟩

/-- `impl Bind<Face<G>, F> for Core<V, A, E, ()>` from `container.rs`: fill
the face slot, keeping the other three. -/
def Core.bindFaces {V A E F : Type} (c : Core V A E Unit) (faces : F) :
    Core V A E F :=
  ⟨c.vertices, c.arcs, c.edges, faces⟩

/-- Walk the `next` links of a mesh: the edge key reached from `e` after
exactly `k` steps of following `next` through edge storage (`none` when a
record or a `next` link is missing along the walk). This is the traversal the
spec's closure invariant and the face views are phrased in. -/
def Mesh.walkNext {GV GE GF : Type} (m : Mesh GV GE GF) : Nat → EdgeKey → Option EdgeKey
  | 0, e => some e
  | k + 1, e =>
    match m.edges.get e with
    | none => none
    | some ed =>
      match ed.next with
      | none => none
      | some n => Mesh.walkNext m k n

/-- Follows the claim's words (face boundary closure): the face `fk` is
present, walking `next` from its stored edge exactly `arity` times returns to
the stored edge, and every edge traversed on that walk has `face` equal to
`fk`. -/
def faceClosureCheck {GV GE GF : Type} (m : Mesh GV GE GF) (fk : FaceKey)
    (arity : Nat) : Bool :=
  match m.faces.get fk with
  | none => false
  | some fc =>
    (decide (Mesh.walkNext m arity fc.edge = some fc.edge)) &&
    ((List.range arity).all (fun i =>
      match Mesh.walkNext m i fc.edge with
      | none => false
      | some e =>
        match m.edges.get e with
        | none => false
        | some ed => decide (ed.face = some fk)))

/-- Follows the claim's words (cycle mismatch): the edge-key slice forms a
closed adjacency cycle when the destination vertex of `edges[i]` equals the
source vertex of `edges[(i+1) % n]` for every `i`. -/
def isAdjacencyCycle (es : List EdgeKey) : Bool :=
  (List.range es.length).all
    (fun i => (es.getD i (0, 0)).2 == (es.getD ((i + 1) % es.length) (0, 0)).1)

/-- The three directed edge keys that `from_iter` inserts for one triangle,
expressed through the indexer's deduplicated vertex list (vertex keys from
the build coincide with indices into that list). -/
def triPairs {γ : Type} [DecidableEq γ] (uniq : List γ) (t : γ × γ × γ) :
    List EdgeKey :=
  [(idxOf uniq t.1, idxOf uniq t.2.1),
    (idxOf uniq t.2.1, idxOf uniq t.2.2),
    (idxOf uniq t.2.2, idxOf uniq t.1)]

/-- All `3T` directed edge keys that `from_iter` inserts for a triangle
stream, in order. -/
def allPairs {γ : Type} [DecidableEq γ] (uniq : List γ)
    (tris : List (γ × γ × γ)) : List EdgeKey :=
  tris.flatMap (triPairs uniq)

/-- Run `insert_vertex` on a unit-geometry mesh, keeping only the mesh. -/
def addV (m : Mesh Unit Unit Unit) : Mesh Unit Unit Unit :=
  (m.insert_vertex ()).2

/-- Run `insert_edge` on a unit-geometry mesh, keeping only the state. -/
def addE (m : Mesh Unit Unit Unit) (a b : Nat) : Mesh Unit Unit Unit :=
  (m.insert_edge (a, b) ()).state

/-- Run `insert_face` on a unit-geometry mesh, keeping only the state. -/
def addF (m : Mesh Unit Unit Unit) (es : List EdgeKey) : Mesh Unit Unit Unit :=
  (m.insert_face es ()).state

/-- A mesh with vertices `0,1,2` and the triangle edges
`(0,1), (1,2), (2,0)`, no face yet, built through the guarded API. -/
def triReady : Mesh Unit Unit Unit :=
  addE (addE (addE (addV (addV (addV Mesh.new))) 0 1) 1 2) 2 0

/-- A mesh with a single triangular face: vertices `0,1,2`, edges
`(0,1), (1,2), (2,0)`, and the face over them, built through the guarded
API. -/
def triMesh : Mesh Unit Unit Unit :=
  addF triReady [(0, 1), (1, 2), (2, 0)]

/-- A mesh with two faces sharing the directed edge `(0,1)`: face `0` over
`(0,1), (1,2), (2,0)` and subsequently face `1` over `(0,1), (1,3), (3,0)`,
built through the guarded API. The second `insert_face` rebinds edge `(0,1)`,
desynchronizing face `0`. -/
def twoFaceMesh : Mesh Unit Unit Unit :=
  addF
    (addE (addE (addF (addE (addE (addE (addV (addV (addV (addV Mesh.new)))) 0 1) 1 2) 2 0)
      [(0, 1), (1, 2), (2, 0)]) 1 3) 3 0)
    [(0, 1), (1, 3), (3, 0)]

/-- A mesh holding exactly the two isolated vertices `0` and `1`. -/
def twoVertexMesh : Mesh Unit Unit Unit := addV (addV Mesh.new)

/-- A mesh holding the single isolated vertex `0`. -/
def oneVertexMesh : Mesh Unit Unit Unit := addV Mesh.new

/-- A mesh with vertices `0,1` and the single edge `(0,1)`. -/
def oneEdgeMesh : Mesh Unit Unit Unit := addE twoVertexMesh 0 1

/-- A mesh with vertices `0,1,2,3` and the path edges `(0,1), (1,2), (2,3)`,
which do not form a closed adjacency cycle. -/
def pathMesh : Mesh Unit Unit Unit :=
  addE (addE (addE (addV (addV (addV (addV Mesh.new)))) 0 1) 1 2) 2 3

/-- The triangle stream of the low-resolution unit sphere from the spec's
reference scenario: 6 triangles (two fans of 3 around the poles `0` and `4`
over the equator `1,2,3`), 18 raw triangle-vertex references, 5 unique
geometry values. -/
def sphereTris : List (Nat × Nat × Nat) :=
  [(0, 1, 2), (0, 2, 3), (0, 3, 1), (4, 2, 1), (4, 3, 2), (4, 1, 3)]

section StorageLemmas

variable {K V W : Type} [DecidableEq K]

theorem lookupEntries_insertEntries_self (l : List (K × V)) (k : K) (v : V) :
    lookupEntries (insertEntries l k v) k = some v := by
  induction l with
  | nil => simp [insertEntries, lookupEntries]
  | cons p rest ih =>
    by_cases h : p.1 = k
    · simp [insertEntries, h, lookupEntries]
    · simp [insertEntries, h, lookupEntries, ih]

theorem lookupEntries_insertEntries_ne (l : List (K × V)) (k : K) (v : V)
    (k' : K) (h : k' ≠ k) :
    lookupEntries (insertEntries l k v) k' = lookupEntries l k' := by
  induction l with
  | nil => simp [insertEntries, lookupEntries, Ne.symm h]
  | cons p rest ih =>
    by_cases hp : p.1 = k
    · subst hp
      simp [insertEntries, lookupEntries, Ne.symm h]
    · simp [insertEntries, hp, lookupEntries, ih]

theorem length_insertEntries_of_none (l : List (K × V)) (k : K) (v : V)
    (h : lookupEntries l k = none) :
    (insertEntries l k v).length = l.length + 1 := by
  induction l with
  | nil => simp [insertEntries]
  | cons p rest ih =>
    by_cases hp : p.1 = k
    · simp [lookupEntries, hp] at h
    · simp only [lookupEntries, hp, if_false] at h
      simp [insertEntries, hp, ih h]

theorem lookupEntries_modifyEntries_self (l : List (K × V)) (k : K) (f : V → V) :
    lookupEntries (modifyEntries l k f) k = (lookupEntries l k).map f := by
  induction l with
  | nil => simp [modifyEntries, lookupEntries]
  | cons p rest ih =>
    by_cases hp : p.1 = k
    · simp [modifyEntries, hp, lookupEntries]
    · simp [modifyEntries, hp, lookupEntries, ih]

theorem lookupEntries_modifyEntries_ne (l : List (K × V)) (k : K) (f : V → V)
    (k' : K) (h : k' ≠ k) :
    lookupEntries (modifyEntries l k f) k' = lookupEntries l k' := by
  induction l with
  | nil => simp [modifyEntries, lookupEntries]
  | cons p rest ih =>
    by_cases hp : p.1 = k
    · subst hp
      simp [modifyEntries, lookupEntries, Ne.symm h]
    · simp [modifyEntries, hp, lookupEntries, ih]

theorem length_modifyEntries (l : List (K × V)) (k : K) (f : V → V) :
    (modifyEntries l k f).length = l.length := by
  induction l with
  | nil => simp [modifyEntries]
  | cons p rest ih =>
    by_cases hp : p.1 = k
    · simp [modifyEntries, hp]
    · simp [modifyEntries, hp, ih]

theorem lookupEntries_append (l1 l2 : List (K × V)) (k : K) :
    lookupEntries (l1 ++ l2) k = (lookupEntries l1 k).or (lookupEntries l2 k) := by
  induction l1 with
  | nil => simp [lookupEntries]
  | cons p rest ih =>
    by_cases hp : p.1 = k
    · simp [lookupEntries, hp]
    · simp [lookupEntries, hp, ih]

theorem lookupEntries_mapValues (l : List (K × V)) (f : V → W) (k : K) :
    lookupEntries (l.map (fun p => (p.1, f p.2))) k = (lookupEntries l k).map f := by
  induction l with
  | nil => simp [lookupEntries]
  | cons p rest ih =>
    by_cases hp : p.1 = k
    · simp [lookupEntries, hp]
    · simp [lookupEntries, hp, ih]

namespace Storage

theorem get_insert_self (s : Storage K V) (k : K) (v : V) :
    (s.insert_with_key k v).get k = some v :=
  lookupEntries_insertEntries_self s.entries k v

theorem get_insert_ne (s : Storage K V) (k : K) (v : V) (k' : K) (h : k' ≠ k) :
    (s.insert_with_key k v).get k' = s.get k' :=
  lookupEntries_insertEntries_ne s.entries k v k' h

theorem len_insert_of_none (s : Storage K V) (k : K) (v : V)
    (h : s.get k = none) : (s.insert_with_key k v).len = s.len + 1 :=
  length_insertEntries_of_none s.entries k v h

theorem nextKey_insert (s : Storage K V) (k : K) (v : V) :
    (s.insert_with_key k v).nextKey = s.nextKey := rfl

theorem get_modify_self (s : Storage K V) (k : K) (f : V → V) :
    (s.modify k f).get k = (s.get k).map f :=
  lookupEntries_modifyEntries_self s.entries k f

theorem get_modify_ne (s : Storage K V) (k : K) (f : V → V) (k' : K)
    (h : k' ≠ k) : (s.modify k f).get k' = s.get k' :=
  lookupEntries_modifyEntries_ne s.entries k f k' h

theorem len_modify (s : Storage K V) (k : K) (f : V → V) :
    (s.modify k f).len = s.len :=
  length_modifyEntries s.entries k f

theorem nextKey_modify (s : Storage K V) (k : K) (f : V → V) :
    (s.modify k f).nextKey = s.nextKey := rfl

theorem isSome_get_modify (s : Storage K V) (k : K) (f : V → V) (k' : K) :
    ((s.modify k f).get k').isSome = (s.get k').isSome := by
  by_cases h : k' = k
  · subst h
    rw [get_modify_self]
    simp [Option.isSome]
    cases s.get k' <;> simp
  · rw [get_modify_ne _ _ _ _ h]

theorem gen_key (s : Storage Nat V) (v : V) :
    (s.insert_with_generator v).1 = s.nextKey := rfl

theorem gen_nextKey (s : Storage Nat V) (v : V) :
    (s.insert_with_generator v).2.nextKey = s.nextKey + 1 := rfl

theorem gen_len (s : Storage Nat V) (v : V) :
    (s.insert_with_generator v).2.len = s.len + 1 := by
  simp [insert_with_generator, len]

theorem gen_get (s : Storage Nat V) (v : V) (k : Nat) :
    (s.insert_with_generator v).2.get k =
      (s.get k).or (if k = s.nextKey then some v else none) := by
  simp only [insert_with_generator, get]
  rw [lookupEntries_append]
  congr 1
  by_cases h : k = s.nextKey
  · subst h
    simp [lookupEntries]
  · simp [lookupEntries, h, Ne.symm h]

theorem gen_get_self (s : Storage Nat V) (v : V)
    (h : s.get s.nextKey = none) :
    (s.insert_with_generator v).2.get s.nextKey = some v := by
  rw [gen_get, h]
  simp

theorem gen_get_ne (s : Storage Nat V) (v : V) (k : Nat)
    (h : k ≠ s.nextKey) :
    (s.insert_with_generator v).2.get k = s.get k := by
  rw [gen_get]
  simp [h]

theorem get_map_values (s : Storage K V) (f : V → W) (k : K) :
    (s.map_values f).get k = (s.get k).map f :=
  lookupEntries_mapValues s.entries f k

omit [DecidableEq K] in
theorem len_map_values (s : Storage K V) (f : V → W) :
    (s.map_values f).len = s.len := by
  simp [map_values, len]

omit [DecidableEq K] in
theorem nextKey_map_values (s : Storage K V) (f : V → W) :
    (s.map_values f).nextKey = s.nextKey := rfl

end Storage

end StorageLemmas

/-- Complete description of a successful `insert_edge` call: when the source
vertex `a` exists, the call returns `Ok((a,b))`; the face storage is
untouched, vertex storage keeps its size and key set (only the cached
outgoing edge of `a` changes), the record stored under `(a,b)` is the fresh
edge with destination `b` and an `opposite` link exactly when `(b,a)` was
present, a present `(b,a)` record gets its `opposite` linked back, and no
other edge record changes. -/
theorem insert_edge_ok {GV GE GF : Type} (m : Mesh GV GE GF) (a b : VertexKey)
    (g : GE) (ha : (m.vertices.get a).isSome) :
    ∃ m', m.insert_edge (a, b) g = .ok (a, b) m' ∧
      m'.faces = m.faces ∧
      m'.vertices.len = m.vertices.len ∧
      (∀ k, ((m'.vertices.get k).isSome) = ((m.vertices.get k).isSome)) ∧
      m'.edges.get (a, b) =
        some ⟨g, b, if (m.edges.get (b, a)).isSome then some (b, a) else none,
          none, none⟩ ∧
      (a ≠ b → ∀ o, m.edges.get (b, a) = some o →
        m'.edges.get (b, a) = some { o with opposite := some (a, b) }) ∧
      (∀ p, p ≠ (a, b) → p ≠ (b, a) → m'.edges.get p = m.edges.get p) ∧
      (∀ p, ((m'.edges.get p).isSome) = (decide (p = (a, b)) || (m.edges.get p).isSome)) ∧
      (m.edges.get (a, b) = none → m'.edges.len = m.edges.len + 1) ∧
      m'.edges.nextKey = m.edges.nextKey := by
  obtain ⟨v, hv⟩ := Option.isSome_iff_exists.mp ha
  cases hba : m.edges.get (b, a) with
  | none =>
    refine ⟨{ m with
        edges := m.edges.insert_with_key (a, b) (Edge.new b g),
        vertices := m.vertices.modify a (fun w => { w with edge := some (a, b) }) },
      ?_, rfl, ?_, ?_, ?_, ?_, ?_, ?_, ?_, rfl⟩
    · simp only [Mesh.insert_edge, hba, hv]
    · exact Storage.len_modify _ _ _
    · intro k
      exact Storage.isSome_get_modify _ _ _ _
    · rw [Storage.get_insert_self]
      rfl
    · intro _ o ho
      exact absurd ho (by simp)
    · intro p hp _
      exact Storage.get_insert_ne _ _ _ _ hp
    · intro p
      by_cases hp : p = (a, b)
      · subst hp
        rw [Storage.get_insert_self]
        simp
      · rw [Storage.get_insert_ne _ _ _ _ hp]
        simp [hp]
    · intro hnone
      exact Storage.len_insert_of_none _ _ _ hnone
  | some o =>
    refine ⟨{ m with
        edges := (m.edges.modify (b, a)
            (fun o => { o with opposite := some (a, b) })).insert_with_key
          (a, b) { Edge.new b g with opposite := some (b, a) },
        vertices := m.vertices.modify a (fun w => { w with edge := some (a, b) }) },
      ?_, rfl, ?_, ?_, ?_, ?_, ?_, ?_, ?_, rfl⟩
    · simp only [Mesh.insert_edge, hba, hv]
    · exact Storage.len_modify _ _ _
    · intro k
      exact Storage.isSome_get_modify _ _ _ _
    · rw [Storage.get_insert_self]
      rfl
    · intro hne o' ho'
      cases ho'
      have hkey : ((b, a) : EdgeKey) ≠ (a, b) := fun hcon => hne (congrArg Prod.snd hcon)
      rw [Storage.get_insert_ne _ _ _ _ hkey, Storage.get_modify_self, hba]
      rfl
    · intro p hp hp'
      rw [Storage.get_insert_ne _ _ _ _ hp, Storage.get_modify_ne _ _ _ _ hp']
    · intro p
      by_cases hp : p = (a, b)
      · subst hp
        rw [Storage.get_insert_self]
        simp
      · rw [Storage.get_insert_ne _ _ _ _ hp]
        rw [Storage.isSome_get_modify]
        simp [hp]
    · intro hnone
      by_cases heq : a = b
      · subst heq
        rw [hnone] at hba
        cases hba
      · have hkey : ((a, b) : EdgeKey) ≠ (b, a) := fun hcon => heq (congrArg Prod.fst hcon)
        have h1 : (m.edges.modify (b, a)
            (fun o => { o with opposite := some (a, b) })).get (a, b) = none := by
          rw [Storage.get_modify_ne _ _ _ _ hkey]
          exact hnone
        rw [Storage.len_insert_of_none _ _ _ h1, Storage.len_modify]

/-- Reading every position of a list in order reproduces the list. -/
theorem getD_range_map {α : Type} (l : List α) (d : α) :
    (List.range l.length).map (fun i => l.getD i d) = l := by
  induction l with
  | nil => simp
  | cons x xs ih =>
    rw [List.length_cons, List.range_succ_eq_map, List.map_cons, List.map_map]
    simpa [Function.comp_def, List.getD] using ih

/-- The first components of the circular connection pairs are exactly the
edge slice itself. -/
theorem cyclePairs_map_fst (es : List EdgeKey) :
    (Mesh.cyclePairs es).map Prod.fst = es := by
  rw [Mesh.cyclePairs, List.map_map]
  exact getD_range_map es (0, 0)

/-- Complete description of the `insert_face` connection loop over a pair
list with pairwise-distinct first components, all present in edge storage:
the loop succeeds, touches neither vertices nor faces nor the set of edge
keys, and rewrites exactly the `next`/`face` fields of each pair's first
edge. -/
theorem connectAll_ok {GV GE GF : Type} (fk : FaceKey)
    (ps : List (EdgeKey × EdgeKey)) (m : Mesh GV GE GF)
    (hmem : ∀ p ∈ ps, ((m.edges.get p.1).isSome))
    (hnd : (ps.map Prod.fst).Nodup) :
    ∃ m', Mesh.connectAll fk m ps = .ok () m' ∧
      m'.vertices = m.vertices ∧
      m'.faces = m.faces ∧
      m'.edges.len = m.edges.len ∧
      m'.edges.nextKey = m.edges.nextKey ∧
      (∀ q, q ∉ ps.map Prod.fst → m'.edges.get q = m.edges.get q) ∧
      (∀ p ∈ ps, ∃ e0, m.edges.get p.1 = some e0 ∧
        m'.edges.get p.1 = some { e0 with next := some p.2, face := some fk }) ∧
      (∀ q, ((m'.edges.get q).isSome) = ((m.edges.get q).isSome)) := by
  induction ps generalizing m with
  | nil =>
    exact ⟨m, rfl, rfl, rfl, rfl, rfl, fun _ _ => rfl, fun _ h => absurd h (by simp),
      fun _ => rfl⟩
  | cons p rest ih =>
    obtain ⟨e0, he0⟩ := Option.isSome_iff_exists.mp (hmem p (by simp))
    rw [List.map_cons, List.nodup_cons] at hnd
    set m1 : Mesh GV GE GF :=
      { m with edges := (m.edges.modify p.1
          (fun e => { e with next := some p.2, face := some fk })) } with hm1
    have hmem1 : ∀ p' ∈ rest, ((m1.edges.get p'.1).isSome) := by
      intro p' hp'
      rw [hm1]
      show ((m.edges.modify _ _).get _).isSome = true
      rw [Storage.isSome_get_modify]
      exact hmem p' (by simp [hp'])
    obtain ⟨m', hrun, hv, hf, hlen, hnk, hout, hin, hsome⟩ := ih m1 hmem1 hnd.2
    refine ⟨m', ?_, hv, hf, ?_, ?_, ?_, ?_, ?_⟩
    · simp only [Mesh.connectAll, Mesh.connect_edges_in_face, he0]
      exact hrun
    · rw [hlen]
      exact Storage.len_modify _ _ _
    · rw [hnk]
      rfl
    · intro q hq
      rw [List.map_cons, List.mem_cons] at hq
      push_neg at hq
      rw [hout q hq.2]
      exact Storage.get_modify_ne _ _ _ _ hq.1
    · intro p' hp'
      rcases List.mem_cons.mp hp' with hp' | hp'
      · subst hp'
        refine ⟨e0, he0, ?_⟩
        rw [hout p'.1 hnd.1, Storage.get_modify_self, he0]
        rfl
      · obtain ⟨e1, he1, he1'⟩ := hin p' hp'
        refine ⟨e1, ?_, he1'⟩
        rw [← he1]
        have hne : p'.1 ≠ p.1 := by
          intro hcon
          exact hnd.1 (hcon ▸ List.mem_map_of_mem Prod.fst hp')
        exact (Storage.get_modify_ne _ _ _ _ hne).symm
    · intro q
      rw [hsome q]
      exact Storage.isSome_get_modify _ _ _ _

/-- Complete description of a successful `insert_face` call on at least three
pairwise-distinct edge keys, all present in edge storage, in a mesh whose
next generated face key is unused: the call returns `Ok` with that fresh
key; the vertex storage is untouched; the face storage gains exactly the one
record referencing `edges[0]`; the edge storage keeps its size and key set,
each `edges[i]` gets `next = edges[(i+1) % n]` and `face` = the new key, and
all other edges are untouched. -/
theorem insert_face_ok {GV GE GF : Type} (m : Mesh GV GE GF) (es : List EdgeKey)
    (g : GF) (hlen : 3 ≤ es.length) (hnd : es.Nodup)
    (hmem : ∀ e ∈ es, ((m.edges.get e).isSome))
    (hfresh : m.faces.get m.faces.nextKey = none) :
    ∃ m', m.insert_face es g = .ok m.faces.nextKey m' ∧
      m'.vertices = m.vertices ∧
      m'.faces.len = m.faces.len + 1 ∧
      m'.faces.nextKey = m.faces.nextKey + 1 ∧
      m'.faces.get m.faces.nextKey = some (Face.new es.headI g) ∧
      (∀ k, k ≠ m.faces.nextKey → m'.faces.get k = m.faces.get k) ∧
      m'.edges.len = m.edges.len ∧
      m'.edges.nextKey = m.edges.nextKey ∧
      (∀ q, q ∉ es → m'.edges.get q = m.edges.get q) ∧
      (∀ q, ((m'.edges.get q).isSome) = ((m.edges.get q).isSome)) ∧
      (∀ i, i < es.length → ∃ e0,
        m.edges.get (es.getD i (0, 0)) = some e0 ∧
        m'.edges.get (es.getD i (0, 0)) = some
          ⟨e0.geometry, e0.vertex, e0.opposite,
            some (es.getD ((i + 1) % es.length) (0, 0)), some m.faces.nextKey⟩) := by
  set mMid : Mesh GV GE GF :=
    { m with faces := (m.faces.insert_with_generator (Face.new es.headI g)).2 } with hmid
  have hmem2 : ∀ p ∈ Mesh.cyclePairs es, ((mMid.edges.get p.1).isSome) := by
    intro p hp
    have : p.1 ∈ (Mesh.cyclePairs es).map Prod.fst := List.mem_map_of_mem Prod.fst hp
    rw [cyclePairs_map_fst] at this
    exact hmem p.1 this
  have hnd2 : ((Mesh.cyclePairs es).map Prod.fst).Nodup := by
    rw [cyclePairs_map_fst]
    exact hnd
  obtain ⟨m', hrun, hv, hf, hel, henk, hout, hin, hsome⟩ :=
    connectAll_ok m.faces.nextKey (Mesh.cyclePairs es) mMid hmem2 hnd2
  refine ⟨m', ?_, hv, ?_, ?_, ?_, ?_, hel, henk, ?_, hsome, ?_⟩
  · simp only [Mesh.insert_face, if_neg (by omega : ¬ es.length < 3)]
    simp only [Storage.gen_key]
    rw [hrun]
  · rw [hf]
    exact Storage.gen_len _ _
  · rw [hf]
    exact Storage.gen_nextKey _ _
  · rw [hf]
    exact Storage.gen_get_self _ _ hfresh
  · intro k hk
    rw [hf]
    exact Storage.gen_get_ne _ _ _ hk
  · intro q hq
    apply hout
    rw [cyclePairs_map_fst]
    exact hq
  · intro i hi
    have hpmem : (es.getD i (0, 0), es.getD ((i + 1) % es.length) (0, 0)) ∈
        Mesh.cyclePairs es := by
      rw [Mesh.cyclePairs]
      exact List.mem_map_of_mem _ (List.mem_range.mpr hi)
    obtain ⟨e0, he0, he0'⟩ := hin _ hpmem
    exact ⟨e0, he0, he0'⟩

/-- Walking `next` through a circularly linked edge list advances the index
modulo the length. -/
theorem walkNext_of_cycle {GV GE GF : Type} (m : Mesh GV GE GF)
    (es : List EdgeKey)
    (hcyc : ∀ i, i < es.length → ∃ ed, m.edges.get (es.getD i (0, 0)) = some ed ∧
      ed.next = some (es.getD ((i + 1) % es.length) (0, 0)))
    (hpos : 0 < es.length) :
    ∀ k i, i < es.length →
      m.walkNext k (es.getD i (0, 0)) = some (es.getD ((i + k) % es.length) (0, 0)) := by
  intro k
  induction k with
  | zero =>
    intro i hi
    rw [Mesh.walkNext, Nat.add_zero, Nat.mod_eq_of_lt hi]
  | succ k ihk =>
    intro i hi
    obtain ⟨ed, hed, hnext⟩ := hcyc i hi
    rw [Mesh.walkNext]
    simp only [hed, hnext]
    rw [ihk _ (Nat.mod_lt _ hpos)]
    congr 2
    rw [Nat.mod_add_mod]
    congr 1
    omega

/-- C3: the claimed `remove_face` postcondition fails: on the concrete
triangle mesh (one face of arity 3, built through the guarded API),
`remove_face` does not succeed at all — it panics while processing the last
boundary edge, whose `next` edge was already deleted in the first loop
iteration. The claim (and the spec) describe a successful removal. -/
theorem remove_face_triangle_panics :
    triMesh.face_count = 1 ∧ triMesh.edge_count = 3 ∧ triMesh.vertex_count = 3 ∧
    (triMesh.faces.get 0).isSome = true ∧
    (Mesh.remove_face triMesh 0).isPanicked = true := by decide

/-- C4: `insert_face` with fewer than 3 edges returns the recoverable error
with a completely unchanged mesh — no face record is created and no storage
is mutated. -/
theorem insert_face_arity_failure {GV GE GF : Type} (m : Mesh GV GE GF)
    (es : List EdgeKey) (g : GF) (h : es.length < 3) :
    m.insert_face es g = .recoverableErr m := by
  simp [Mesh.insert_face, h]

/-- C4 witness: a one-edge slice on a concrete mesh. -/
theorem insert_face_arity_failure_witness :
    Mesh.insert_face twoVertexMesh [(0, 1)] () = .recoverableErr twoVertexMesh :=
  insert_face_arity_failure twoVertexMesh [(0, 1)] () (by decide)

/-- C5 counterexample: `insert_edge` rejects neither self-loops nor duplicate
directed edges. On a mesh with existing vertices, `insert_edge((0,0))`
returns `Ok` (not a recoverable error), and on a mesh already containing
edge `(0,1)`, `insert_edge((0,1))` again returns `Ok`. -/
theorem insert_edge_no_rejection :
    ((twoVertexMesh.vertices.get 0).isSome = true) ∧
    (twoVertexMesh.insert_edge (0, 0) ()).isErr = false ∧
    (twoVertexMesh.insert_edge (0, 0) ()).isOk = true ∧
    (oneEdgeMesh.edges.get (0, 1)).isSome = true ∧
    (oneEdgeMesh.insert_edge (0, 1) ()).isErr = false ∧
    (oneEdgeMesh.insert_edge (0, 1) ()).isOk = true := by decide

/-- C5 amended: `insert_edge` performs no validation of its edge key:
whenever the source vertex exists it returns `Ok((a,b))` — including when
`a = b` (a self-loop is stored) and when the directed edge `(a,b)` already
exists (the stored record is overwritten) — and it never returns a
recoverable error for any input. -/
theorem insert_edge_never_errs {GV GE GF : Type} (m : Mesh GV GE GF)
    (a b : VertexKey) (g : GE) (ha : (m.vertices.get a).isSome) :
    (m.insert_edge (a, b) g).isErr = false ∧
    ∃ m', m.insert_edge (a, b) g = .ok (a, b) m' := by
  obtain ⟨m', hm', _⟩ := insert_edge_ok m a b g ha
  exact ⟨by rw [hm']; rfl, m', hm'⟩

/-- C5 amended witness: the self-loop `(0,0)` on a concrete mesh. -/
theorem insert_edge_never_errs_witness :
    (twoVertexMesh.insert_edge (0, 0) ()).isErr = false ∧
    ∃ m', twoVertexMesh.insert_edge (0, 0) () = .ok (0, 0) m' :=
  insert_edge_never_errs twoVertexMesh 0 0 () (by decide)

/-- C6 counterexample: `insert_edge` with a destination vertex key that is
not in vertex storage does not return a recoverable error and does not leave
the storages unchanged: on a mesh with only vertex `0`, inserting `(0,5)`
returns `Ok` and grows edge storage. -/
theorem insert_edge_unknown_destination_accepted :
    oneVertexMesh.vertices.get 5 = none ∧
    (oneVertexMesh.insert_edge (0, 5) ()).isErr = false ∧
    (oneVertexMesh.insert_edge (0, 5) ()).isOk = true ∧
    (oneVertexMesh.insert_edge (0, 5) ()).state.edge_count = 1 ∧
    oneVertexMesh.edge_count = 0 := by decide

/-- C6 amended: invalid references are not reported as recoverable errors.
`remove_face` on an unknown face key panics (with no storage mutated before
the panic); `insert_edge` with an unknown source vertex panics, but only
after the edge record has already been inserted into edge storage; and
`insert_edge` with an unknown destination vertex is not detected at all —
it succeeds whenever the source vertex exists. -/
theorem invalid_reference_panics {GV GE GF : Type} (m : Mesh GV GE GF)
    (f : FaceKey) (a b c d : VertexKey) (g g' : GE)
    (hf : m.faces.get f = none) (ha : m.vertices.get a = none)
    (hc : (m.vertices.get c).isSome) :
    m.remove_face f = .panicked m ∧
    (m.insert_edge (a, b) g).isPanicked = true ∧
    ((m.insert_edge (a, b) g).state.edges.get (a, b)).isSome = true ∧
    (∃ m', m.insert_edge (c, d) g' = .ok (c, d) m') := by
  refine ⟨?_, ?_, ?_, ?_⟩
  · simp [Mesh.remove_face, hf]
  · cases hba : m.edges.get (b, a) <;> simp [Mesh.insert_edge, hba, ha, MRes.isPanicked]
  · cases hba : m.edges.get (b, a) <;>
      simp only [Mesh.insert_edge, hba, ha, MRes.state] <;>
      rw [Storage.get_insert_self] <;> rfl
  · obtain ⟨m', hm', _⟩ := insert_edge_ok m c d g' hc
    exact ⟨m', hm'⟩

/-- C6 amended witness: unknown face key `0`, unknown vertices `5` and `9`,
known vertex `0`, on the concrete one-vertex mesh. -/
theorem invalid_reference_panics_witness :
    Mesh.remove_face oneVertexMesh 0 = .panicked oneVertexMesh ∧
    (oneVertexMesh.insert_edge (5, 7) ()).isPanicked = true ∧
    ((oneVertexMesh.insert_edge (5, 7) ()).state.edges.get (5, 7)).isSome = true ∧
    (∃ m', oneVertexMesh.insert_edge (0, 9) () = .ok (0, 9) m') :=
  invalid_reference_panics oneVertexMesh 0 5 7 0 9 () ()
    (by decide) (by decide) (by decide)

/-- C7: `insert_face` does not detect a cycle mismatch: the path slice
`(0,1), (1,2), (2,3)` is not a closed adjacency cycle, yet `insert_face`
returns `Ok` and installs the face instead of reporting a recoverable
error. The spec requires the mismatch to be detected and reported. -/
theorem insert_face_no_cycle_validation :
    isAdjacencyCycle [(0, 1), (1, 2), (2, 3)] = false ∧
    (pathMesh.insert_face [(0, 1), (1, 2), (2, 3)] ()).isErr = false ∧
    (pathMesh.insert_face [(0, 1), (1, 2), (2, 3)] ()).isOk = true ∧
    (pathMesh.insert_face [(0, 1), (1, 2), (2, 3)] ()).state.face_count = 1 ∧
    pathMesh.face_count = 0 := by decide

/-- C1 counterexample: the closure property is not an invariant of all
meshes reachable through the guarded mutation API. `twoFaceMesh` is reached
by two successful `insert_face` calls (both of arity 3) sharing edge
`(0,1)`: the second call rebinds that edge, so face `0` is still stored with
edge `(0,1)` but that edge's `face` field now names face `1`, and the
closure check for face `0` fails. -/
theorem face_closure_not_invariant :
    twoFaceMesh.faces.get 0 = some ⟨(), (0, 1)⟩ ∧
    (twoFaceMesh.edges.get (0, 1)).map Edge.face = some (some 1) ∧
    faceClosureCheck twoFaceMesh 0 3 = false := by decide

/-- C1 amended: immediately after every successful
`insert_face(edges, geometry)` on pairwise-distinct edge keys present in
edge storage (in a mesh whose next generated face key is unused), the new
face satisfies closure: the face record references `edges[0]`, each
`edges[i]` has `next = edges[(i+1) % n]`, and walking `next` from the stored
edge exactly `n` times returns to it with every traversed edge's `face`
naming the new face. The property need not survive later `insert_face`
calls that rebind a boundary edge. -/
theorem insert_face_closure {GV GE GF : Type} (m : Mesh GV GE GF)
    (es : List EdgeKey) (g : GF) (hlen : 3 ≤ es.length) (hnd : es.Nodup)
    (hmem : ∀ e ∈ es, ((m.edges.get e).isSome))
    (hfresh : m.faces.get m.faces.nextKey = none) :
    ∃ fk m', m.insert_face es g = .ok fk m' ∧
      (m'.faces.get fk).map Face.edge = some es.headI ∧
      (∀ i, i < es.length → (m'.edges.get (es.getD i (0, 0))).map Edge.next =
        some (some (es.getD ((i + 1) % es.length) (0, 0)))) ∧
      faceClosureCheck m' fk es.length = true := by
  obtain ⟨m', heq, hv, hflen, hfnk, hfget, hfne, hel, henk, hout, hsome, hidx⟩ :=
    insert_face_ok m es g hlen hnd hmem hfresh
  have hpos : 0 < es.length := by omega
  have hhead : es.headI = es.getD 0 (0, 0) := by
    cases es with
    | nil => simp at hlen
    | cons x xs => rfl
  have hcyc : ∀ i, i < es.length → ∃ ed,
      m'.edges.get (es.getD i (0, 0)) = some ed ∧
      ed.next = some (es.getD ((i + 1) % es.length) (0, 0)) := by
    intro i hi
    obtain ⟨e0, _, he'⟩ := hidx i hi
    exact ⟨_, he', rfl⟩
  have hwalk := walkNext_of_cycle m' es hcyc hpos
  refine ⟨m.faces.nextKey, m', heq, ?_, ?_, ?_⟩
  · rw [hfget]
    rfl
  · intro i hi
    obtain ⟨e0, _, he'⟩ := hidx i hi
    rw [he']
    rfl
  · simp only [faceClosureCheck, hfget]
    rw [Bool.and_eq_true]
    constructor
    · rw [decide_eq_true_eq]
      show m'.walkNext es.length es.headI = some es.headI
      rw [hhead, hwalk es.length 0 hpos]
      congr 2
      simp
    · rw [List.all_eq_true]
      intro i hiR
      have hi : i < es.length := List.mem_range.mp hiR
      have hw : m'.walkNext i (Face.new es.headI g).edge = some (es.getD i (0, 0)) := by
        show m'.walkNext i es.headI = _
        rw [hhead, hwalk i 0 hpos]
        congr 2
        simp [Nat.mod_eq_of_lt hi]
      obtain ⟨e0, _, he'⟩ := hidx i hi
      simp only [hw, he']
      rw [decide_eq_true_eq]
      trivial

/-- C1 amended witness: the triangle slice `(0,1), (1,2), (2,0)` on the
concrete pre-face triangle mesh. -/
theorem insert_face_closure_witness :
    ∃ fk m', triReady.insert_face [(0, 1), (1, 2), (2, 0)] () = .ok fk m' ∧
      (m'.faces.get fk).map Face.edge = some ([(0, 1), (1, 2), (2, 0)] : List EdgeKey).headI ∧
      (∀ i, i < ([(0, 1), (1, 2), (2, 0)] : List EdgeKey).length →
        (m'.edges.get (([(0, 1), (1, 2), (2, 0)] : List EdgeKey).getD i (0, 0))).map Edge.next =
        some (some (([(0, 1), (1, 2), (2, 0)] : List EdgeKey).getD
          ((i + 1) % ([(0, 1), (1, 2), (2, 0)] : List EdgeKey).length) (0, 0)))) ∧
      faceClosureCheck m' fk ([(0, 1), (1, 2), (2, 0)] : List EdgeKey).length = true :=
  insert_face_closure triReady [(0, 1), (1, 2), (2, 0)] ()
    (by decide) (by decide) (by decide) (by decide)

/-- C2: opposite pairing. On any mesh with distinct existing vertices `a`,
`b`: inserting `(a,b)` then `(b,a)` leaves the two records' `opposite`
fields pointing at each other, and inserting only `(a,b)` while `(b,a)` is
absent leaves its `opposite` field `None`. -/
theorem insert_edge_opposite_pairing {GV GE GF : Type} (m : Mesh GV GE GF)
    (a b : VertexKey) (g1 g2 : GE)
    (ha : (m.vertices.get a).isSome) (hb : (m.vertices.get b).isSome)
    (hab : a ≠ b) :
    (∃ m1 m2, m.insert_edge (a, b) g1 = .ok (a, b) m1 ∧
      m1.insert_edge (b, a) g2 = .ok (b, a) m2 ∧
      (m2.edges.get (a, b)).map Edge.opposite = some (some (b, a)) ∧
      (m2.edges.get (b, a)).map Edge.opposite = some (some (a, b))) ∧
    (m.edges.get (b, a) = none →
      ∃ m1, m.insert_edge (a, b) g1 = .ok (a, b) m1 ∧
        (m1.edges.get (a, b)).map Edge.opposite = some none) := by
  obtain ⟨m1, heq1, hfc1, hvl1, hvs1, hget1, hopp1, hother1, hsome1, hlen1, hnk1⟩ :=
    insert_edge_ok m a b g1 ha
  constructor
  · have hb1 : (m1.vertices.get b).isSome := by
      rw [hvs1]
      exact hb
    obtain ⟨m2, heq2, _, _, _, hget2, hopp2, _, _, _, _⟩ :=
      insert_edge_ok m1 b a g2 hb1
    have h1 : (m1.edges.get (a, b)).isSome := by
      rw [hget1]
      rfl
    refine ⟨m1, m2, heq1, heq2, ?_, ?_⟩
    · rw [hopp2 (Ne.symm hab) _ hget1]
      rfl
    · rw [hget2]
      simp [h1]
  · intro hba
    refine ⟨m1, heq1, ?_⟩
    rw [hget1]
    simp [hba]

/-- C2 witness: vertices `0` and `1` of the concrete two-vertex mesh. -/
theorem insert_edge_opposite_pairing_witness :
    (∃ m1 m2, twoVertexMesh.insert_edge (0, 1) () = .ok (0, 1) m1 ∧
      m1.insert_edge (1, 0) () = .ok (1, 0) m2 ∧
      (m2.edges.get (0, 1)).map Edge.opposite = some (some (1, 0)) ∧
      (m2.edges.get (1, 0)).map Edge.opposite = some (some (0, 1))) ∧
    (twoVertexMesh.edges.get (1, 0) = none →
      ∃ m1, twoVertexMesh.insert_edge (0, 1) () = .ok (0, 1) m1 ∧
        (m1.edges.get (0, 1)).map Edge.opposite = some none) :=
  insert_edge_opposite_pairing twoVertexMesh 0 1 () ()
    (by decide) (by decide) (by decide)

/-- Mapping the values of an association list with a pointwise-identity
function is the identity. -/
theorem map_entries_id {K V : Type} (l : List (K × V)) (h : V → V)
    (hh : ∀ v, h v = v) : l.map (fun p => (p.1, h p.2)) = l := by
  induction l with
  | nil => rfl
  | cons p rest ih => simp [hh, ih]

/-- `map_values` with a pointwise-identity function is the identity. -/
theorem Storage.map_values_id_of {K V : Type} [DecidableEq K] (s : Storage K V)
    (h : V → V) (hh : ∀ v, h v = v) : s.map_values h = s := by
  cases s with
  | mk n l =>
    simp only [Storage.map_values]
    rw [map_entries_id l h hh]

/-- Two consecutive `map_values` compose. -/
theorem Storage.map_values_comp {K V W X : Type} [DecidableEq K]
    (s : Storage K V) (f : V → W) (g : W → X) :
    (s.map_values f).map_values g = s.map_values (fun v => g (f v)) := by
  cases s with
  | mk n l =>
    simp [Storage.map_values, List.map_map, Function.comp_def]

/-- C9: geometry conversion is connectivity-preserving. For arbitrary
per-attribute conversion functions (invertible or not), element-wise
conversion keeps every key present with the same connectivity fields
(vertex `edge` back-references; edge `vertex`, `opposite`, `next`, `face`;
face `edge` references) and all three counts; only geometry payloads are
transformed. Consequently, converting with inverse attribute functions and
converting back reproduces the original mesh exactly. -/
theorem from_geometry_preserves_connectivity {GV GE GF HV HE HF : Type}
    (fv : HV → GV) (fe : HE → GE) (ff : HF → GF)
    (gv : GV → HV) (ge : GE → HE) (gf : GF → HF) (m : Mesh HV HE HF) :
    (∀ k, ((Mesh.from_geometry fv fe ff m).vertices.get k).isSome =
      ((m.vertices.get k).isSome)) ∧
    (∀ k, ((Mesh.from_geometry fv fe ff m).vertices.get k).map Vertex.edge =
      (m.vertices.get k).map Vertex.edge) ∧
    (∀ p, ((Mesh.from_geometry fv fe ff m).edges.get p).map Edge.vertex =
      (m.edges.get p).map Edge.vertex) ∧
    (∀ p, ((Mesh.from_geometry fv fe ff m).edges.get p).map Edge.opposite =
      (m.edges.get p).map Edge.opposite) ∧
    (∀ p, ((Mesh.from_geometry fv fe ff m).edges.get p).map Edge.next =
      (m.edges.get p).map Edge.next) ∧
    (∀ p, ((Mesh.from_geometry fv fe ff m).edges.get p).map Edge.face =
      (m.edges.get p).map Edge.face) ∧
    (∀ k, ((Mesh.from_geometry fv fe ff m).faces.get k).map Face.edge =
      (m.faces.get k).map Face.edge) ∧
    (Mesh.from_geometry fv fe ff m).vertex_count = m.vertex_count ∧
    (Mesh.from_geometry fv fe ff m).edge_count = m.edge_count ∧
    (Mesh.from_geometry fv fe ff m).face_count = m.face_count ∧
    ((∀ x, gv (fv x) = x) → (∀ x, ge (fe x) = x) → (∀ x, gf (ff x) = x) →
      Mesh.from_geometry gv ge gf (Mesh.from_geometry fv fe ff m) = m) := by
  refine ⟨?_, ?_, ?_, ?_, ?_, ?_, ?_, ?_, ?_, ?_, ?_⟩
  · intro k
    show ((m.vertices.map_values _).get k).isSome = _
    rw [Storage.get_map_values]
    cases m.vertices.get k <;> rfl
  · intro k
    show ((m.vertices.map_values _).get k).map Vertex.edge = _
    rw [Storage.get_map_values]
    cases m.vertices.get k <;> rfl
  · intro p
    show ((m.edges.map_values _).get p).map Edge.vertex = _
    rw [Storage.get_map_values]
    cases m.edges.get p <;> rfl
  · intro p
    show ((m.edges.map_values _).get p).map Edge.opposite = _
    rw [Storage.get_map_values]
    cases m.edges.get p <;> rfl
  · intro p
    show ((m.edges.map_values _).get p).map Edge.next = _
    rw [Storage.get_map_values]
    cases m.edges.get p <;> rfl
  · intro p
    show ((m.edges.map_values _).get p).map Edge.face = _
    rw [Storage.get_map_values]
    cases m.edges.get p <;> rfl
  · intro k
    show ((m.faces.map_values _).get k).map Face.edge = _
    rw [Storage.get_map_values]
    cases m.faces.get k <;> rfl
  · exact Storage.len_map_values _ _
  · exact Storage.len_map_values _ _
  · exact Storage.len_map_values _ _
  · intro hv he hf
    cases m with
    | mk mv me mf =>
      simp only [Mesh.from_geometry]
      have hvv : ∀ w : Vertex HV,
          Vertex.from_geometry gv (Vertex.from_geometry fv w) = w := by
        intro w
        cases w
        simp [Vertex.from_geometry, hv]
      have hee : ∀ w : Edge HE,
          Edge.from_geometry ge (Edge.from_geometry fe w) = w := by
        intro w
        cases w
        simp [Edge.from_geometry, he]
      have hff : ∀ w : Face HF,
          Face.from_geometry gf (Face.from_geometry ff w) = w := by
        intro w
        cases w
        simp [Face.from_geometry, hf]
      congr 1
      · rw [Storage.map_values_comp]
        exact Storage.map_values_id_of _ _ hvv
      · rw [Storage.map_values_comp]
        exact Storage.map_values_id_of _ _ hee
      · rw [Storage.map_values_comp]
        exact Storage.map_values_id_of _ _ hff

/-- C9 witness: identity conversions on the concrete triangle mesh. -/
theorem from_geometry_preserves_connectivity_witness :
    (∀ k, ((Mesh.from_geometry (@id Unit) (@id Unit) (@id Unit) triMesh).vertices.get k).isSome =
      ((triMesh.vertices.get k).isSome)) ∧
    (∀ k, ((Mesh.from_geometry (@id Unit) (@id Unit) (@id Unit) triMesh).vertices.get k).map Vertex.edge =
      (triMesh.vertices.get k).map Vertex.edge) ∧
    (∀ p, ((Mesh.from_geometry (@id Unit) (@id Unit) (@id Unit) triMesh).edges.get p).map Edge.vertex =
      (triMesh.edges.get p).map Edge.vertex) ∧
    (∀ p, ((Mesh.from_geometry (@id Unit) (@id Unit) (@id Unit) triMesh).edges.get p).map Edge.opposite =
      (triMesh.edges.get p).map Edge.opposite) ∧
    (∀ p, ((Mesh.from_geometry (@id Unit) (@id Unit) (@id Unit) triMesh).edges.get p).map Edge.next =
      (triMesh.edges.get p).map Edge.next) ∧
    (∀ p, ((Mesh.from_geometry (@id Unit) (@id Unit) (@id Unit) triMesh).edges.get p).map Edge.face =
      (triMesh.edges.get p).map Edge.face) ∧
    (∀ k, ((Mesh.from_geometry (@id Unit) (@id Unit) (@id Unit) triMesh).faces.get k).map Face.edge =
      (triMesh.faces.get k).map Face.edge) ∧
    (Mesh.from_geometry (@id Unit) (@id Unit) (@id Unit) triMesh).vertex_count = triMesh.vertex_count ∧
    (Mesh.from_geometry (@id Unit) (@id Unit) (@id Unit) triMesh).edge_count = triMesh.edge_count ∧
    (Mesh.from_geometry (@id Unit) (@id Unit) (@id Unit) triMesh).face_count = triMesh.face_count ∧
    Mesh.from_geometry (@id Unit) (@id Unit) (@id Unit)
      (Mesh.from_geometry (@id Unit) (@id Unit) (@id Unit) triMesh) = triMesh := by
  obtain ⟨h1, h2, h3, h4, h5, h6, h7, h8, h9, h10, himp⟩ :=
    from_geometry_preserves_connectivity (@id Unit) (@id Unit) (@id Unit)
      (@id Unit) (@id Unit) (@id Unit) triMesh
  exact ⟨h1, h2, h3, h4, h5, h6, h7, h8, h9, h10,
    himp (fun _ => rfl) (fun _ => rfl) (fun _ => rfl)⟩

/-- C10: `Core` bind/decompose round trip. Starting from `Core::empty`,
binding a vertex, arc, edge and face storage in any of the 24 orders yields
a core whose `into_storage` is exactly the tuple of the four bound values;
and each `bind` fills exactly its own slot, leaving the other three
untouched. -/
theorem core_bind_into_storage {V A E F : Type} (v : V) (a : A) (e : E) (f : F) :
    (∀ (c : Core Unit A E F) (x : V), (c.bindVertices x).vertices = x ∧
      (c.bindVertices x).arcs = c.arcs ∧ (c.bindVertices x).edges = c.edges ∧
      (c.bindVertices x).faces = c.faces) ∧
    (∀ (c : Core V Unit E F) (x : A), (c.bindArcs x).arcs = x ∧
      (c.bindArcs x).vertices = c.vertices ∧ (c.bindArcs x).edges = c.edges ∧
      (c.bindArcs x).faces = c.faces) ∧
    (∀ (c : Core V A Unit F) (x : E), (c.bindEdges x).edges = x ∧
      (c.bindEdges x).vertices = c.vertices ∧ (c.bindEdges x).arcs = c.arcs ∧
      (c.bindEdges x).faces = c.faces) ∧
    (∀ (c : Core V A E Unit) (x : F), (c.bindFaces x).faces = x ∧
      (c.bindFaces x).vertices = c.vertices ∧ (c.bindFaces x).arcs = c.arcs ∧
      (c.bindFaces x).edges = c.edges) ∧
    ((((Core.empty.bindVertices v).bindArcs a).bindEdges e).bindFaces f).into_storage = (v, a, e, f) ∧
    ((((Core.empty.bindVertices v).bindArcs a).bindFaces f).bindEdges e).into_storage = (v, a, e, f) ∧
    ((((Core.empty.bindVertices v).bindEdges e).bindArcs a).bindFaces f).into_storage = (v, a, e, f) ∧
    ((((Core.empty.bindVertices v).bindEdges e).bindFaces f).bindArcs a).into_storage = (v, a, e, f) ∧
    ((((Core.empty.bindVertices v).bindFaces f).bindArcs a).bindEdges e).into_storage = (v, a, e, f) ∧
    ((((Core.empty.bindVertices v).bindFaces f).bindEdges e).bindArcs a).into_storage = (v, a, e, f) ∧
    ((((Core.empty.bindArcs a).bindVertices v).bindEdges e).bindFaces f).into_storage = (v, a, e, f) ∧
    ((((Core.empty.bindArcs a).bindVertices v).bindFaces f).bindEdges e).into_storage = (v, a, e, f) ∧
    ((((Core.empty.bindArcs a).bindEdges e).bindVertices v).bindFaces f).into_storage = (v, a, e, f) ∧
    ((((Core.empty.bindArcs a).bindEdges e).bindFaces f).bindVertices v).into_storage = (v, a, e, f) ∧
    ((((Core.empty.bindArcs a).bindFaces f).bindVertices v).bindEdges e).into_storage = (v, a, e, f) ∧
    ((((Core.empty.bindArcs a).bindFaces f).bindEdges e).bindVertices v).into_storage = (v, a, e, f) ∧
    ((((Core.empty.bindEdges e).bindVertices v).bindArcs a).bindFaces f).into_storage = (v, a, e, f) ∧
    ((((Core.empty.bindEdges e).bindVertices v).bindFaces f).bindArcs a).into_storage = (v, a, e, f) ∧
    ((((Core.empty.bindEdges e).bindArcs a).bindVertices v).bindFaces f).into_storage = (v, a, e, f) ∧
    ((((Core.empty.bindEdges e).bindArcs a).bindFaces f).bindVertices v).into_storage = (v, a, e, f) ∧
    ((((Core.empty.bindEdges e).bindFaces f).bindVertices v).bindArcs a).into_storage = (v, a, e, f) ∧
    ((((Core.empty.bindEdges e).bindFaces f).bindArcs a).bindVertices v).into_storage = (v, a, e, f) ∧
    ((((Core.empty.bindFaces f).bindVertices v).bindArcs a).bindEdges e).into_storage = (v, a, e, f) ∧
    ((((Core.empty.bindFaces f).bindVertices v).bindEdges e).bindArcs a).into_storage = (v, a, e, f) ∧
    ((((Core.empty.bindFaces f).bindArcs a).bindVertices v).bindEdges e).into_storage = (v, a, e, f) ∧
    ((((Core.empty.bindFaces f).bindArcs a).bindEdges e).bindVertices v).into_storage = (v, a, e, f) ∧
    ((((Core.empty.bindFaces f).bindEdges e).bindVertices v).bindArcs a).into_storage = (v, a, e, f) ∧
    ((((Core.empty.bindFaces f).bindEdges e).bindArcs a).bindVertices v).into_storage = (v, a, e, f) :=
  ⟨fun _ _ => ⟨rfl, rfl, rfl, rfl⟩, fun _ _ => ⟨rfl, rfl, rfl, rfl⟩,
    fun _ _ => ⟨rfl, rfl, rfl, rfl⟩, fun _ _ => ⟨rfl, rfl, rfl, rfl⟩,
    rfl, rfl, rfl, rfl, rfl, rfl, rfl, rfl, rfl, rfl, rfl, rfl,
    rfl, rfl, rfl, rfl, rfl, rfl, rfl, rfl, rfl, rfl, rfl, rfl⟩

/-- An option whose `isSome` is `false` is `none`. -/
theorem isSome_false_iff {α : Type} (o : Option α) : o.isSome = false ↔ o = none := by
  cases o <;> simp

/-- The first-seen index of a member is in range. -/
theorem idxOf_lt_length {γ : Type} [DecidableEq γ] (l : List γ) (g : γ)
    (h : g ∈ l) : idxOf l g < l.length := by
  induction l with
  | nil => cases h
  | cons x xs ih =>
    rw [idxOf]
    by_cases hx : x = g
    · simp [hx]
    · rcases List.mem_cons.mp h with h1 | h1
      · exact absurd h1.symm hx
      · simpa [hx] using Nat.succ_lt_succ (ih h1)

/-- Every element already in the accumulator or in the remaining input ends
up in the first-seen deduplication fold. -/
theorem mem_foldl_uniques {γ : Type} [DecidableEq γ] (l : List γ) (acc : List γ)
    (g : γ) (h : g ∈ acc ∨ g ∈ l) :
    g ∈ l.foldl (fun acc g => if g ∈ acc then acc else acc ++ [g]) acc := by
  induction l generalizing acc with
  | nil =>
    rw [List.foldl_nil]
    exact h.resolve_right (by simp)
  | cons x xs ih =>
    rw [List.foldl_cons]
    apply ih
    rcases h with h | h
    · left
      by_cases hx : x ∈ acc
      · simpa [hx] using h
      · simp [hx, h]
    · rcases List.mem_cons.mp h with h1 | h1
      · subst h1
        left
        by_cases hx : g ∈ acc <;> simp [hx]
      · right
        exact h1

/-- Every element of the input stream appears in its deduplicated vertex
list. -/
theorem mem_uniques {γ : Type} [DecidableEq γ] (l : List γ) (g : γ)
    (h : g ∈ l) : g ∈ uniques l :=
  mem_foldl_uniques l [] g (Or.inr h)

/-- Complete description of the vertex-insertion phase of the bulk build:
the generated keys are consecutive from the storage's generator counter,
edge and face storage are untouched, and the vertex storage grows by exactly
the inserted count with exactly the new keys added to its key set. -/
theorem insertVertices_spec {GV GE GF : Type} (m : Mesh GV GE GF) (gs : List GV) :
    (Mesh.insertVertices m gs).1 = List.range' m.vertices.nextKey gs.length ∧
    (Mesh.insertVertices m gs).2.edges = m.edges ∧
    (Mesh.insertVertices m gs).2.faces = m.faces ∧
    (Mesh.insertVertices m gs).2.vertices.len = m.vertices.len + gs.length ∧
    (∀ k, (((Mesh.insertVertices m gs).2.vertices.get k).isSome) ↔
      (((m.vertices.get k).isSome) ∨ k ∈ List.range' m.vertices.nextKey gs.length)) := by
  induction gs generalizing m with
  | nil =>
    refine ⟨rfl, rfl, rfl, rfl, ?_⟩
    intro k
    simp [Mesh.insertVertices]
  | cons gHead rest ih =>
    obtain ⟨ihk, ihe, ihf, ihl, ihs⟩ := ih (m.insert_vertex gHead).2
    have hnk : (m.insert_vertex gHead).2.vertices.nextKey = m.vertices.nextKey + 1 :=
      Storage.gen_nextKey _ _
    refine ⟨?_, ihe, ihf, ?_, ?_⟩
    · show (m.insert_vertex gHead).1 :: (Mesh.insertVertices (m.insert_vertex gHead).2 rest).1 = _
      rw [ihk, hnk]
      rfl
    · show (Mesh.insertVertices (m.insert_vertex gHead).2 rest).2.vertices.len = _
      rw [ihl]
      show ((m.vertices.insert_with_generator (Vertex.new gHead)).2).len + rest.length = _
      rw [Storage.gen_len]
      simp [List.length_cons]
      omega
    · intro k
      show (((Mesh.insertVertices (m.insert_vertex gHead).2 rest).2.vertices.get k).isSome) ↔ _
      rw [ihs k, hnk]
      have hg : ((m.insert_vertex gHead).2.vertices.get k) =
          (m.vertices.get k).or
            (if k = m.vertices.nextKey then some (Vertex.new gHead) else none) :=
        Storage.gen_get _ _ _
      rw [hg, Option.isSome_or]
      have hmem : k ∈ List.range' m.vertices.nextKey (gHead :: rest).length ↔
          (k = m.vertices.nextKey ∨ k ∈ List.range' (m.vertices.nextKey + 1) rest.length) := by
        rw [List.length_cons]
        show k ∈ m.vertices.nextKey :: List.range' (m.vertices.nextKey + 1) rest.length ↔ _
        exact List.mem_cons
      rw [hmem]
      by_cases hk : k = m.vertices.nextKey <;> simp [hk]

/-- Complete description of one triangle insertion of the bulk build, for a
triangle whose three directed edges are pairwise distinct and fresh and
whose three vertex keys exist: the step succeeds, the vertex storage keeps
its size and key set, the edge storage gains exactly the three directed
edges, and the face storage gains exactly one record under the fresh
generated key. -/
theorem triangleStep_spec {GV GE GF : Type} (geD : GE) (gfD : GF)
    (m : Mesh GV GE GF) (i1 i2 i3 : VertexKey)
    (h1 : ((m.vertices.get i1).isSome)) (h2 : ((m.vertices.get i2).isSome))
    (h3 : ((m.vertices.get i3).isSome))
    (hne12 : ((i1, i2) : EdgeKey) ≠ (i2, i3))
    (hne13 : ((i1, i2) : EdgeKey) ≠ (i3, i1))
    (hne23 : ((i2, i3) : EdgeKey) ≠ (i3, i1))
    (hf1 : m.edges.get (i1, i2) = none) (hf2 : m.edges.get (i2, i3) = none)
    (hf3 : m.edges.get (i3, i1) = none)
    (hgen : ∀ k, m.faces.nextKey ≤ k → m.faces.get k = none) :
    ∃ m', Mesh.triangleStep geD gfD m i1 i2 i3 = .ok () m' ∧
      m'.vertices.len = m.vertices.len ∧
      (∀ k, ((m'.vertices.get k).isSome) = ((m.vertices.get k).isSome)) ∧
      m'.edges.len = m.edges.len + 3 ∧
      (∀ p, (((m'.edges.get p).isSome)) ↔
        (p = (i1, i2) ∨ p = (i2, i3) ∨ p = (i3, i1) ∨ ((m.edges.get p).isSome))) ∧
      m'.faces.len = m.faces.len + 1 ∧
      m'.faces.nextKey = m.faces.nextKey + 1 ∧
      (∀ k, k ≠ m.faces.nextKey → m'.faces.get k = m.faces.get k) := by
  obtain ⟨m1, heq1, hfc1, hvl1, hvs1, _, _, _, hsome1, hlen1, _⟩ :=
    insert_edge_ok m i1 i2 geD h1
  have h2m1 : ((m1.vertices.get i2).isSome) := by
    rw [hvs1]
    exact h2
  obtain ⟨m2, heq2, hfc2, hvl2, hvs2, _, _, _, hsome2, hlen2, _⟩ :=
    insert_edge_ok m1 i2 i3 geD h2m1
  have h3m2 : ((m2.vertices.get i3).isSome) := by
    rw [hvs2, hvs1]
    exact h3
  obtain ⟨m3, heq3, hfc3, hvl3, hvs3, _, _, _, hsome3, hlen3, _⟩ :=
    insert_edge_ok m2 i3 i1 geD h3m2
  have hp1 : ((m1.edges.get (i1, i2)).isSome) = true := by
    rw [hsome1]
    simp
  have hp2 : ((m2.edges.get (i2, i3)).isSome) = true := by
    rw [hsome2]
    simp
  have hp2' : ((m2.edges.get (i1, i2)).isSome) = true := by
    rw [hsome2, hp1]
    simp
  have hp3 : ((m3.edges.get (i3, i1)).isSome) = true := by
    rw [hsome3]
    simp
  have hp3' : ((m3.edges.get (i1, i2)).isSome) = true := by
    rw [hsome3, hp2']
    simp
  have hp3'' : ((m3.edges.get (i2, i3)).isSome) = true := by
    rw [hsome3, hp2]
    simp
  have hmem3 : ∀ e ∈ ([(i1, i2), (i2, i3), (i3, i1)] : List EdgeKey),
      ((m3.edges.get e).isSome) := by
    intro e he
    rcases List.mem_cons.mp he with he | he
    · subst he
      exact hp3'
    rcases List.mem_cons.mp he with he | he
    · subst he
      exact hp3''
    rcases List.mem_cons.mp he with he | he
    · subst he
      exact hp3
    · cases he
  have hnd3 : ([(i1, i2), (i2, i3), (i3, i1)] : List EdgeKey).Nodup := by
    simp [List.nodup_cons, hne12, hne13, hne23]
  have hfr3 : m3.faces.get m3.faces.nextKey = none := by
    rw [hfc3, hfc2, hfc1]
    exact hgen _ (Nat.le_refl _)
  obtain ⟨m4, heq4, hv4, hflen4, hfnk4, _, hfne4, hel4, _, _, hsome4, _⟩ :=
    insert_face_ok m3 [(i1, i2), (i2, i3), (i3, i1)] gfD (by simp) hnd3 hmem3 hfr3
  refine ⟨m4, ?_, ?_, ?_, ?_, ?_, ?_, ?_, ?_⟩
  · simp only [Mesh.triangleStep, heq1, heq2, heq3, heq4]
  · rw [hv4, hvl3, hvl2, hvl1]
  · intro k
    rw [hv4, hvs3, hvs2, hvs1]
  · have hn2 : m1.edges.get (i2, i3) = none := by
      rw [← isSome_false_iff, hsome1]
      simp [Ne.symm hne12, hf2]
    have hn3 : m2.edges.get (i3, i1) = none := by
      rw [← isSome_false_iff, hsome2, hsome1]
      simp [Ne.symm hne23, Ne.symm hne13, hf3]
    rw [hel4, hlen3 hn3, hlen2 hn2, hlen1 hf1]
  · intro p
    rw [hsome4, hsome3, hsome2, hsome1]
    simp only [Bool.or_eq_true, decide_eq_true_eq]
    constructor
    · intro h
      rcases h with h | h
      · exact Or.inr (Or.inr (Or.inl h))
      rcases h with h | h
      · exact Or.inr (Or.inl h)
      rcases h with h | h
      · exact Or.inl h
      · exact Or.inr (Or.inr (Or.inr h))
    · intro h
      rcases h with h | h
      · exact Or.inr (Or.inr (Or.inl h))
      rcases h with h | h
      · exact Or.inr (Or.inl h)
      rcases h with h | h
      · exact Or.inl h
      · exact Or.inr (Or.inr (Or.inr h))
  · rw [hflen4, hfc3, hfc2, hfc1]
  · rw [hfnk4, hfc3, hfc2, hfc1]
  · intro k hk
    have hk3 : k ≠ m3.faces.nextKey := by
      rw [hfc3, hfc2, hfc1]
      exact hk
    rw [hfne4 k hk3, hfc3, hfc2, hfc1]

/-- Complete description of the triangle loop of the bulk build: when every
triangle's geometry values come from the deduplicated list, the vertex key
set is exactly the indices into that list, the directed index pairs of the
remaining triangles are pairwise distinct and absent from edge storage, and
the face generator is fresh, the loop succeeds and adds exactly three edges
and one face per triangle while the vertex count is unchanged. -/
theorem trianglesLoop_spec {γ GV GE GF : Type} [DecidableEq γ]
    (geD : GE) (gfD : GF) (uniq : List γ) (rest : List (γ × γ × γ))
    (m : Mesh GV GE GF)
    (hflat : ∀ t ∈ rest, t.1 ∈ uniq ∧ t.2.1 ∈ uniq ∧ t.2.2 ∈ uniq)
    (hvert : ∀ k, (((m.vertices.get k).isSome)) ↔ k < uniq.length)
    (hfresh : ∀ p ∈ allPairs uniq rest, m.edges.get p = none)
    (hnd : (allPairs uniq rest).Nodup)
    (hgen : ∀ k, m.faces.nextKey ≤ k → m.faces.get k = none) :
    ∃ m', Mesh.trianglesLoop geD gfD uniq (List.range uniq.length) m rest = .ok () m' ∧
      m'.vertices.len = m.vertices.len ∧
      m'.edges.len = m.edges.len + 3 * rest.length ∧
      m'.faces.len = m.faces.len + rest.length := by
  induction rest generalizing m with
  | nil => exact ⟨m, rfl, rfl, by simp, by simp⟩
  | cons t rest' ih =>
    obtain ⟨ht1, ht2, ht3⟩ := hflat t (by simp)
    have hi1 : idxOf uniq t.1 < uniq.length := idxOf_lt_length _ _ ht1
    have hi2 : idxOf uniq t.2.1 < uniq.length := idxOf_lt_length _ _ ht2
    have hi3 : idxOf uniq t.2.2 < uniq.length := idxOf_lt_length _ _ ht3
    have hk1 : (List.range uniq.length).get? (idxOf uniq t.1) = some (idxOf uniq t.1) := by
      rw [List.get?_eq_getElem?, List.getElem?_range hi1]
    have hk2 : (List.range uniq.length).get? (idxOf uniq t.2.1) = some (idxOf uniq t.2.1) := by
      rw [List.get?_eq_getElem?, List.getElem?_range hi2]
    have hk3 : (List.range uniq.length).get? (idxOf uniq t.2.2) = some (idxOf uniq t.2.2) := by
      rw [List.get?_eq_getElem?, List.getElem?_range hi3]
    have hsplit : allPairs uniq (t :: rest') = triPairs uniq t ++ allPairs uniq rest' := by
      simp [allPairs]
    rw [hsplit] at hnd hfresh
    rw [List.nodup_append] at hnd
    obtain ⟨hndT, hndR, hdisj⟩ := hnd
    have htp : triPairs uniq t =
        [(idxOf uniq t.1, idxOf uniq t.2.1), (idxOf uniq t.2.1, idxOf uniq t.2.2),
          (idxOf uniq t.2.2, idxOf uniq t.1)] := rfl
    rw [htp] at hndT hdisj
    have hnds := List.nodup_cons.mp hndT
    have hnds2 := List.nodup_cons.mp hnds.2
    have hne12 : ((idxOf uniq t.1, idxOf uniq t.2.1) : EdgeKey) ≠
        (idxOf uniq t.2.1, idxOf uniq t.2.2) := by
      intro hcon
      exact hnds.1 (by rw [hcon]; simp)
    have hne13 : ((idxOf uniq t.1, idxOf uniq t.2.1) : EdgeKey) ≠
        (idxOf uniq t.2.2, idxOf uniq t.1) := by
      intro hcon
      exact hnds.1 (by rw [hcon]; simp)
    have hne23 : ((idxOf uniq t.2.1, idxOf uniq t.2.2) : EdgeKey) ≠
        (idxOf uniq t.2.2, idxOf uniq t.1) := by
      intro hcon
      exact hnds2.1 (by rw [hcon]; simp)
    have hf1 : m.edges.get (idxOf uniq t.1, idxOf uniq t.2.1) = none := by
      apply hfresh
      exact List.mem_append_left _ (by rw [htp]; simp)
    have hf2 : m.edges.get (idxOf uniq t.2.1, idxOf uniq t.2.2) = none := by
      apply hfresh
      exact List.mem_append_left _ (by rw [htp]; simp)
    have hf3 : m.edges.get (idxOf uniq t.2.2, idxOf uniq t.1) = none := by
      apply hfresh
      exact List.mem_append_left _ (by rw [htp]; simp)
    obtain ⟨m4, tseq, tsvl, tsvs, tsel, tses, tsfl, tsfnk, tsfne⟩ :=
      triangleStep_spec geD gfD m (idxOf uniq t.1) (idxOf uniq t.2.1) (idxOf uniq t.2.2)
        ((hvert _).mpr hi1) ((hvert _).mpr hi2) ((hvert _).mpr hi3)
        hne12 hne13 hne23 hf1 hf2 hf3 hgen
    have hvert4 : ∀ k, (((m4.vertices.get k).isSome)) ↔ k < uniq.length := by
      intro k
      rw [tsvs k]
      exact hvert k
    have hfresh4 : ∀ p ∈ allPairs uniq rest', m4.edges.get p = none := by
      intro p hp
      rw [← isSome_false_iff]
      have hnotT : p ∉ ([(idxOf uniq t.1, idxOf uniq t.2.1),
          (idxOf uniq t.2.1, idxOf uniq t.2.2),
          (idxOf uniq t.2.2, idxOf uniq t.1)] : List EdgeKey) := by
        intro hin
        exact (hdisj hin) hp
      rw [Bool.eq_false_iff]
      intro htrue
      rcases (tses p).mp htrue with h | h | h | h
      · exact hnotT (by rw [h]; simp)
      · exact hnotT (by rw [h]; simp)
      · exact hnotT (by rw [h]; simp)
      · rw [hfresh p (List.mem_append_right _ hp)] at h
        cases h
    have hgen4 : ∀ k, m4.faces.nextKey ≤ k → m4.faces.get k = none := by
      intro k hk
      rw [tsfnk] at hk
      have hkne : k ≠ m.faces.nextKey := by omega
      rw [tsfne k hkne]
      exact hgen k (by omega)
    obtain ⟨m', hrun, hvl, hel, hfl⟩ := ih m4
      (fun t' ht' => hflat t' (by simp [ht'])) hvert4 hfresh4 hndR hgen4
    refine ⟨m', ?_, ?_, ?_, ?_⟩
    · show Mesh.trianglesLoop geD gfD uniq (List.range uniq.length) m (t :: rest') = _
      rw [Mesh.trianglesLoop]
      simp only [hk1, hk2, hk3, tseq]
      exact hrun
    · rw [hvl, tsvl]
    · rw [hel, tsel, List.length_cons]
      ring
    · rw [hfl, tsfl, List.length_cons]
      ring

/-- C8 counterexample: the bulk-construction count formula fails on a
triangle stream in which a directed edge repeats. The stream of two copies
of the same triangle (`T = 2`, `V = 3`) builds successfully, but the second
copy's `insert_edge` calls overwrite the first copy's records under the same
directed keys, so the edge count is 3, not `3 * T = 6` (vertex and face
counts do match). -/
theorem bulk_counts_duplicate_triangle :
    (Mesh.fromTriangles (fun n : Nat => n) () () [(0, 1, 2), (0, 1, 2)]).isOk = true ∧
    (uniques (flattenTriangles [((0 : Nat), (1 : Nat), (2 : Nat)), (0, 1, 2)])).length = 3 ∧
    (Mesh.fromTriangles (fun n : Nat => n) () () [(0, 1, 2), (0, 1, 2)]).state.vertex_count = 3 ∧
    (Mesh.fromTriangles (fun n : Nat => n) () () [(0, 1, 2), (0, 1, 2)]).state.face_count = 2 ∧
    (Mesh.fromTriangles (fun n : Nat => n) () () [(0, 1, 2), (0, 1, 2)]).state.edge_count = 3 ∧
    3 ≠ 3 * 2 := by decide

/-- C8 amended: bulk construction from a stream of `T` triangles whose
vertex geometries deduplicate to `V` unique values yields vertex count `V`,
edge count `3T` and face count `T`, provided the `3T` directed edges induced
by the indexer are pairwise distinct (as they are for a consistently
oriented closed surface; a stream repeating a directed edge overwrites the
earlier record instead). -/
theorem bulk_counts {γ GV GE GF : Type} [DecidableEq γ]
    (fv : γ → GV) (geD : GE) (gfD : GF) (tris : List (γ × γ × γ))
    (hnd : (allPairs (uniques (flattenTriangles tris)) tris).Nodup) :
    ∃ m', Mesh.fromTriangles fv geD gfD tris = .ok () m' ∧
      m'.vertex_count = (uniques (flattenTriangles tris)).length ∧
      m'.edge_count = 3 * tris.length ∧
      m'.face_count = tris.length := by
  obtain ⟨hkeys, hedges, hfaces, hvlen, hvsome⟩ :=
    insertVertices_spec (@Mesh.new GV GE GF)
      ((uniques (flattenTriangles tris)).map fv)
  have hkeys' : (Mesh.insertVertices (@Mesh.new GV GE GF)
      ((uniques (flattenTriangles tris)).map fv)).1 =
      List.range (uniques (flattenTriangles tris)).length := by
    rw [hkeys, List.length_map]
    exact (List.range_eq_range' _).symm
  set mV : Mesh GV GE GF :=
    (Mesh.insertVertices (@Mesh.new GV GE GF)
      ((uniques (flattenTriangles tris)).map fv)).2 with hmV
  have hflat : ∀ t ∈ tris, t.1 ∈ uniques (flattenTriangles tris) ∧
      t.2.1 ∈ uniques (flattenTriangles tris) ∧
      t.2.2 ∈ uniques (flattenTriangles tris) := by
    intro t ht
    refine ⟨?_, ?_, ?_⟩ <;> apply mem_uniques <;>
      exact List.mem_flatMap.mpr ⟨t, ht, by simp⟩
  have hzero : (@Mesh.new GV GE GF).vertices.nextKey = 0 := rfl
  have hvert : ∀ k, (((mV.vertices.get k).isSome)) ↔
      k < (uniques (flattenTriangles tris)).length := by
    intro k
    rw [hvsome k]
    have hnone : (@Mesh.new GV GE GF).vertices.get k = none := rfl
    rw [hnone]
    simp only [Option.isSome_none, Bool.false_eq_true, false_or, List.mem_range'_1,
      List.length_map, hzero]
    constructor
    · rintro ⟨h1, h2⟩
      simpa using h2
    · intro h
      refine ⟨Nat.zero_le k, ?_⟩
      simpa using h
  have hfreshE : ∀ p ∈ allPairs (uniques (flattenTriangles tris)) tris,
      mV.edges.get p = none := by
    intro p _
    rw [hedges]
    rfl
  have hgenF : ∀ k, mV.faces.nextKey ≤ k → mV.faces.get k = none := by
    intro k _
    rw [hfaces]
    rfl
  obtain ⟨m', hrun, hvl, hel, hfl⟩ :=
    trianglesLoop_spec geD gfD (uniques (flattenTriangles tris)) tris mV
      hflat hvert hfreshE hnd hgenF
  refine ⟨m', ?_, ?_, ?_, ?_⟩
  · show Mesh.fromTriangles fv geD gfD tris = _
    rw [Mesh.fromTriangles]
    rw [hkeys']
    exact hrun
  · show m'.vertices.len = _
    rw [hvl, hvlen, List.length_map]
    have h0 : (@Mesh.new GV GE GF).vertices.len = 0 := rfl
    rw [h0]
    omega
  · show m'.edges.len = _
    rw [hel, hedges]
    have h0 : (@Mesh.new GV GE GF).edges.len = 0 := rfl
    rw [h0]
    omega
  · show m'.faces.len = _
    rw [hfl, hfaces]
    have h0 : (@Mesh.new GV GE GF).faces.len = 0 := rfl
    rw [h0]
    omega

/-- C8 amended witness: the low-resolution sphere stream (6 triangles, 5
unique positions) yields counts 5, 18, 6. -/
theorem bulk_counts_witness :
    (allPairs (uniques (flattenTriangles sphereTris)) sphereTris).Nodup ∧
    ∃ m', Mesh.fromTriangles (fun n : Nat => n) () () sphereTris = .ok () m' ∧
      m'.vertex_count = 5 ∧ m'.edge_count = 18 ∧ m'.face_count = 6 := by
  refine ⟨by decide, ?_⟩
  obtain ⟨m', h1, h2, h3, h4⟩ :=
    bulk_counts (fun n : Nat => n) () () sphereTris (by decide)
  refine ⟨m', h1, ?_, ?_, ?_⟩
  · rw [h2]
    decide
  · rw [h3]
    decide
  · rw [h4]
    decide

end Plexus
